import Mathlib

/-!
Verification development for the signalnotes prioritization and
signal-aggregation engine: a shallow embedding of the deterministic
scoring, frequency, standing-action, goal-assignment and pruning
algorithms, with theorems checking the specification's claims.

Timestamps are modelled as integer milliseconds since the Unix epoch
(UTC).  JavaScript `Math.floor` division is `Int.fdiv`, and
date-fns `differenceInDays` (which truncates the exact day difference
toward zero) is `Int.tdiv`.  Monetary-free numeric results (scores,
frequencies, mention weights) are rationals.
-/

namespace SignalNotes

/-- Milliseconds in one day (`1000 * 60 * 60 * 24`). -/
def msPerDay : Int := 86400000

/-- date-fns `differenceInDays laterDate earlierDate`: the number of whole
days between two timestamps, truncated toward zero. -/
def differenceInDays (laterDate earlierDate : Int) : Int :=
  Int.tdiv (laterDate - earlierDate) msPerDay

/-- date-fns `startOfDay`: the timestamp floored to the start of its day. -/
def startOfDay (t : Int) : Int := msPerDay * Int.fdiv t msPerDay

/-- JavaScript `Date.getDay()`: 0 = Sunday, …, 6 = Saturday.  Day 0 of the
epoch (1970-01-01) was a Thursday, hence the offset 4. -/
def dayOfWeekOf (t : Int) : Int := (Int.fdiv t msPerDay + 4) % 7

/-- Action status (`SUGGESTED` pending acceptance, `ACTIVE` confirmed,
`DONE` completed). -/
inductive Status where
  | SUGGESTED
  | ACTIVE
  | DONE
deriving DecidableEq

/-- Priority tier (`P0` highest). -/
inductive Priority where
  | P0
  | P1
  | P2
deriving DecidableEq

/-- Standing cadence. -/
inductive Cadence where
  | WEEKLY
deriving DecidableEq

/-- A normalized named entity.  `frequency` is the engine-owned decayed
mention score. -/
structure Topic where
  id : Nat
  name : String
  normKey : String
  frequency : Rat
deriving DecidableEq

/-- A (topic, note) extraction event.  The owning note's `ceoMentioned`
flag is inlined (the code reads it through an FK-total relational
include `mention.note.ceoMentioned`). -/
structure TopicMention where
  topicId : Nat
  createdAt : Int
  weight : Rat
  isAsk : Bool
  isNudge : Bool
  noteCeoMentioned : Bool
deriving DecidableEq

/-- A unit of work. -/
structure Action where
  id : Nat
  activity : String
  priority : Priority
  dueDate : Option Int
  status : Status
  isCeoRelated : Bool
  isStanding : Bool
  standingCadence : Option Cadence
  sortScore : Rat
  createdAt : Int
  completedAt : Option Int
  lastCompletedAt : Option Int
  completionHistory : List Int
  macroGoalId : Option Nat
deriving DecidableEq

/-- Many-to-many link between an action and a topic. -/
structure ActionTopic where
  actionId : Nat
  topicId : Nat
deriving DecidableEq

/-- An inferred or user-authored strategic objective. -/
structure MacroGoal where
  id : Nat
  goal : String
  topicKeys : List String
  editedByUser : Bool
deriving DecidableEq

/-- The persisted relational state the engine reads and writes.
`nextActionId` / `nextGoalId` model the store's id auto-increment. -/
structure DB where
  topics : List Topic
  mentions : List TopicMention
  actions : List Action
  actionTopics : List ActionTopic
  goals : List MacroGoal
  nextActionId : Nat
  nextGoalId : Nat
deriving DecidableEq

/-- `prisma.action.findUnique({ where: { id } })`. -/
def findAction (db : DB) (actionId : Nat) : Option Action :=
  db.actions.find? (fun a => decide (a.id = actionId))

/-- The topics linked to an action through `ActionTopic` rows
(the relational `include { topics: { include: { topic } } }`). -/
def linkedTopics (db : DB) (actionId : Nat) : List Topic :=
  (db.actionTopics.filter (fun link => decide (link.actionId = actionId))).filterMap
    (fun link => db.topics.find? (fun t => decide (t.id = link.topicId)))

/-- `calculateActionScore` from `src/lib/services/actionScoring.ts`
(the variant the refresh orchestrator uses), transcribed block by
block: CEO boost, topic frequency sum, due-date urgency bucket,
aging boost, standing boost. -/
def calculateActionScore (db : DB) (now : Int) (actionId : Nat) : Rat :=
  match findAction db actionId with
  | none => 0
  | some action =>
    let score : Rat := 0
    let score := if action.isCeoRelated then score + 1000 else score
    let topicScores := (linkedTopics db action.id).foldl (fun sum t => sum + t.frequency) 0
    let score := score + topicScores
    let score :=
      match action.dueDate with
      | some dueDate =>
        let daysUntil := differenceInDays dueDate now
        if daysUntil < 0 then score + 200
        else if daysUntil = 0 then score + 150
        else if daysUntil = 1 then score + 100
        else if daysUntil ≤ 3 then score + 50
        else score
      | none => score
    let daysOpen := differenceInDays now action.createdAt
    let score := score + min ((daysOpen : Rat) * 5) 100
    let score := if action.isStanding then score + 500 else score
    score

/-- The important-party signal of the score: +1000 when `isCeoRelated`. -/
def ceoContribution (a : Action) : Rat :=
  if a.isCeoRelated then 1000 else 0

/-- The recurrence signal of the score: +500 when `isStanding`. -/
def standingContribution (a : Action) : Rat :=
  if a.isStanding then 500 else 0

/-- The topic-frequency signal of the score: the sum of the
frequencies of all linked topics. -/
def topicFrequencyContribution (db : DB) (a : Action) : Rat :=
  (linkedTopics db a.id).foldl (fun sum t => sum + t.frequency) 0

/-- The due-date urgency signal of the score: the single bucket the
action's due date falls in. -/
def dueDateContribution (now : Int) (a : Action) : Rat :=
  match a.dueDate with
  | none => 0
  | some dueDate =>
    let daysUntil := differenceInDays dueDate now
    if daysUntil < 0 then 200
    else if daysUntil = 0 then 150
    else if daysUntil = 1 then 100
    else if daysUntil ≤ 3 then 50
    else 0

/-- The aging signal of the score: `min(daysOpen * 5, 100)`. -/
def ageContribution (now : Int) (a : Action) : Rat :=
  min ((differenceInDays now a.createdAt : Rat) * 5) 100

namespace Legacy

/-- The legacy `calculateActionScore` (from the older scoring module):
same five signals, but the due-date bucket chain is
`daysUntil <= 0 → +200`, `= 1 → +100`, `<= 3 → +50`, with no separate
due-today tier. -/
def calculateActionScore (db : DB) (now : Int) (actionId : Nat) : Rat :=
  match findAction db actionId with
  | none => 0
  | some action =>
    let score : Rat := 0
    let score := if action.isCeoRelated then score + 1000 else score
    let score := if action.isStanding then score + 500 else score
    let topicScore := (linkedTopics db action.id).foldl (fun sum t => sum + t.frequency) 0
    let score := score + topicScore
    let score :=
      match action.dueDate with
      | some dueDate =>
        let daysUntil := differenceInDays dueDate now
        if daysUntil ≤ 0 then score + 200
        else if daysUntil = 1 then score + 100
        else if daysUntil ≤ 3 then score + 50
        else score
      | none => score
    let daysOpen := differenceInDays now action.createdAt
    let score := score + min ((daysOpen : Rat) * 5) 100
    score

end Legacy

/-- `differenceInDays` for the legacy due-date bucket chain, isolated as
the legacy score's due-date signal. -/
def legacyDueDateContribution (now : Int) (a : Action) : Rat :=
  match a.dueDate with
  | none => 0
  | some dueDate =>
    let daysUntil := differenceInDays dueDate now
    if daysUntil ≤ 0 then 200
    else if daysUntil = 1 then 100
    else if daysUntil ≤ 3 then 50
    else 0

/-- The mentions the frequency calculator reads for a topic: all
`TopicMention` rows of the topic with `createdAt >= now - 28 days`. -/
def topicMentionsInWindow (db : DB) (now : Int) (topicId : Nat) : List TopicMention :=
  db.mentions.filter
    (fun m => decide (m.topicId = topicId) && decide (now - 28 * msPerDay ≤ m.createdAt))

/-- `Math.floor((Date.now() - mention.createdAt.getTime()) / (1000*60*60*24))`. -/
def mentionDaysAgo (now : Int) (m : TopicMention) : Int :=
  Int.fdiv (now - m.createdAt) msPerDay

/-- `calculateTopicFrequency` from `src/lib/services/topicFrequency.ts`:
sum over the in-window mentions of the adjusted weight (×3 when the
owning note mentioned the CEO, then +2 for an ask, then +1 for a nudge)
times the linear recency multiplier `1 - (daysAgo / 28) * 0.5`. -/
def calculateTopicFrequency (db : DB) (now : Int) (topicId : Nat) : Rat :=
  (topicMentionsInWindow db now topicId).foldl
    (fun frequency m =>
      let weight := m.weight
      let weight := if m.noteCeoMentioned then weight * 3 else weight
      let weight := if m.isAsk then weight + 2 else weight
      let weight := if m.isNudge then weight + 1 else weight
      let recencyMultiplier : Rat := 1 - ((mentionDaysAgo now m : Rat) / 28) * (1 / 2)
      frequency + weight * recencyMultiplier)
    0

/-- One mention's summand as the spec words it: base weight, ×3 for an
important-party note, +2 for an ask, +1 for a nudge, decayed by
`1 - (daysAgo / 28) * 0.5`. -/
def mentionContribution (now : Int) (m : TopicMention) : Rat :=
  let base := if m.noteCeoMentioned then m.weight * 3 else m.weight
  let base := if m.isAsk then base + 2 else base
  let base := if m.isNudge then base + 1 else base
  base * (1 - ((mentionDaysAgo now m : Rat) / 28) * (1 / 2))

/-- `updateAllTopicFrequencies`: recompute and persist every topic's
frequency (each topic's value depends only on the mention table, so the
sequential loop is a map). -/
def updateAllTopicFrequencies (db : DB) (now : Int) : DB :=
  let newTopics :=
    db.topics.map (fun t => { t with frequency := calculateTopicFrequency db now t.id })
  { db with topics := newTopics }

/-- The mentions `detectStandingActions` scans: last 28 days, owning note
has the CEO flag, and the mention is an ask or a nudge. -/
def qualifyingMentions (db : DB) (now : Int) : List TopicMention :=
  db.mentions.filter
    (fun m => decide (now - 28 * msPerDay ≤ m.createdAt)
      && m.noteCeoMentioned && (m.isAsk || m.isNudge))

/-- Ask-count of a topic among the qualifying mentions. -/
def askCount (db : DB) (now : Int) (topicId : Nat) : Nat :=
  ((qualifyingMentions db now).filter (fun m => decide (m.topicId = topicId))).length

/-- Most-recent qualifying mention timestamp of a topic (the map entry's
`lastAsk`: initialized with the first mention seen, then maxed). -/
def lastAsk (db : DB) (now : Int) (topicId : Nat) : Int :=
  match ((qualifyingMentions db now).filter
      (fun m => decide (m.topicId = topicId))).map (fun m => m.createdAt) with
  | [] => 0
  | c :: cs => cs.foldl max c

/-- Keys of a JS `Map` built by inserting each list element in order:
first occurrences, in order of first insertion. -/
def mapKeys : List Nat → List Nat
  | [] => []
  | x :: xs => x :: mapKeys (xs.filter (fun y => decide (y ≠ x)))
termination_by l => l.length
decreasing_by
  simp only [List.length_cons]
  exact Nat.lt_succ_of_le (List.length_filter_le _ _)

/-- The topic ids grouped by `detectStandingActions` (the `topicAskCounts`
map's keys). -/
def standingKeys (db : DB) (now : Int) : List Nat :=
  mapKeys ((qualifyingMentions db now).map (fun m => m.topicId))

/-- Whether a standing action already exists for a topic, in any status
(the `findFirst` duplicate check). -/
def existsStandingFor (db : DB) (topicId : Nat) : Bool :=
  db.actions.any (fun a => a.isStanding
    && db.actionTopics.any
        (fun link => decide (link.actionId = a.id) && decide (link.topicId = topicId)))

/-- How many standing actions are linked to a topic. -/
def standingActionCountFor (db : DB) (topicId : Nat) : Nat :=
  (db.actions.filter (fun a => a.isStanding
    && db.actionTopics.any
        (fun link => decide (link.actionId = a.id) && decide (link.topicId = topicId)))).length

/-- Display name of a topic (`data.topic.name`). -/
def topicNameOf (db : DB) (topicId : Nat) : String :=
  ((db.topics.find? (fun t => decide (t.id = topicId))).map (fun t => t.name)).getD ""

/-- `getNextMonday` from the standing-action module: start of today,
`getDay()`, `daysUntilMonday = dayOfWeek === 0 ? 1 : 8 - dayOfWeek`,
then `addDays`. -/
def getNextMonday (now : Int) : Int :=
  let today := startOfDay now
  let dayOfWeek := dayOfWeekOf now
  let daysUntilMonday := if dayOfWeek = 0 then 1 else 8 - dayOfWeek
  today + daysUntilMonday * msPerDay

/-- Create one standing action for a topic and link it (`prisma.action.create`
followed by `prisma.actionTopic.create`). -/
def createStandingAction (db : DB) (now : Int) (topicId : Nat) : DB :=
  let action : Action :=
    { id := db.nextActionId
      activity := "Send CEO update on " ++ topicNameOf db topicId
      priority := Priority.P0
      dueDate := some (getNextMonday now)
      status := Status.ACTIVE
      isCeoRelated := true
      isStanding := true
      standingCadence := some Cadence.WEEKLY
      sortScore := 0
      createdAt := now
      completedAt := none
      lastCompletedAt := none
      completionHistory := []
      macroGoalId := none }
  { db with
    actions := db.actions ++ [action]
    actionTopics := db.actionTopics ++ [{ actionId := db.nextActionId, topicId := topicId }]
    nextActionId := db.nextActionId + 1 }

/-- One loop iteration of `detectStandingActions`: the threshold test
reads the pre-computed map (built from the initial state `db0`), the
duplicate check reads the live state. -/
def standingDetectStep (db0 : DB) (now : Int) (db : DB) (topicId : Nat) : DB :=
  if 3 ≤ askCount db0 now topicId ∧ now - 14 * msPerDay ≤ lastAsk db0 now topicId then
    if existsStandingFor db topicId then db else createStandingAction db now topicId
  else db

/-- `detectStandingActions`: group qualifying mentions by topic, then for
each topic with ≥3 asks and a recent ask create a standing action unless
one already exists in any status. -/
def detectStandingActions (db : DB) (now : Int) : DB :=
  (standingKeys db now).foldl (standingDetectStep db now) db

/-- The id auto-increment invariant: every stored action id and link
actionId is below the next fresh id. -/
def freshIds (db : DB) : Prop :=
  (∀ a ∈ db.actions, a.id < db.nextActionId)
  ∧ ∀ link ∈ db.actionTopics, link.actionId < db.nextActionId

/-- `handleStandingActionCompletion`: no-op unless the action exists and
is standing; otherwise append the completion timestamp to the history
and mark it done (no due-date roll-forward). -/
def handleStandingActionCompletion (db : DB) (now : Int) (actionId : Nat) : DB :=
  match findAction db actionId with
  | none => db
  | some action =>
    if action.isStanding then
      { db with actions := db.actions.map (fun a =>
          if a.id = actionId then
            { a with
              status := Status.DONE
              completedAt := some now
              lastCompletedAt := some now
              completionHistory := action.completionHistory ++ [now] }
          else a) }
    else db

/-- A goal statement returned by the goal-inference collaborator. -/
structure InferredGoal where
  goal : String
  topicKeys : List String
deriving DecidableEq

/-- `inferMacroGoals` wraps the OpenAI call in a try/catch that returns
`[]` on any failure (thrown error or unparseable content); on success it
returns the parsed goals.  The collaborator's outcome is the
parameter. -/
def inferMacroGoalsResult (response : Except String (List InferredGoal)) : List InferredGoal :=
  match response with
  | Except.ok goals => goals
  | Except.error _ => []

/-- The `prisma.macroGoal.create` loop of `updateMacroGoals`. -/
def createMacroGoals (db : DB) (inferredGoals : List InferredGoal) : DB :=
  inferredGoals.foldl
    (fun d g =>
      { d with
        goals := d.goals ++
          [{ id := d.nextGoalId, goal := g.goal, topicKeys := g.topicKeys,
             editedByUser := false }]
        nextGoalId := d.nextGoalId + 1 })
    db

/-- The goals `createMacroGoals` appends, spelled out: one fresh
non-user-edited goal per inferred goal, ids counting up from
`startId`. -/
def freshGoalsFrom (startId : Nat) : List InferredGoal → List MacroGoal
  | [] => []
  | g :: gs =>
    { id := startId, goal := g.goal, topicKeys := g.topicKeys, editedByUser := false }
      :: freshGoalsFrom (startId + 1) gs

/-- Overlap count of a goal with an action's topic keys:
`goal.topicKeys.filter((key) => actionTopicKeys.includes(key)).length`. -/
def goalOverlap (g : MacroGoal) (actionTopicKeys : List String) : Nat :=
  (g.topicKeys.filter (fun key => actionTopicKeys.contains key)).length

/-- The best-goal scan of `autoAssignActionsToGoals`: start from
`(null, 0)` and replace the candidate whenever a goal's overlap is
strictly larger. -/
def bestGoalFold (goals : List MacroGoal) (actionTopicKeys : List String) :
    Option MacroGoal × Nat :=
  goals.foldl
    (fun acc g =>
      let overlap := goalOverlap g actionTopicKeys
      if overlap > acc.2 then (some g, overlap) else acc)
    (none, 0)

/-- The normalized keys of the topics linked to an action. -/
def actionTopicKeysOf (db : DB) (a : Action) : List String :=
  (linkedTopics db a.id).map (fun t => t.normKey)

/-- Per-action body of `autoAssignActionsToGoals`: only active/suggested
actions with no assigned goal are candidates; assign the scanned best
goal when its overlap is positive. -/
def assignActionToGoal (db : DB) (a : Action) : Action :=
  if (decide (a.status = Status.ACTIVE) || decide (a.status = Status.SUGGESTED))
      && decide (a.macroGoalId = none) then
    match (bestGoalFold db.goals (actionTopicKeysOf db a)).1 with
    | some g =>
      if (bestGoalFold db.goals (actionTopicKeysOf db a)).2 > 0 then
        { a with macroGoalId := some g.id }
      else a
    | none => a
  else a

/-- `autoAssignActionsToGoals`: the update loop only writes
`macroGoalId`, so it is a map over the action table. -/
def autoAssignActionsToGoals (db : DB) : DB :=
  { db with actions := db.actions.map (fun a => assignActionToGoal db a) }

/-- `updateMacroGoals`: infer goals (an empty list on collaborator
failure), delete every non-user-edited goal, insert the inferred set as
fresh non-user-edited goals, then auto-assign actions. -/
def updateMacroGoals (db : DB) (response : Except String (List InferredGoal)) : DB :=
  let inferredGoals := inferMacroGoalsResult response
  let db := { db with goals := db.goals.filter (fun g => g.editedByUser) }
  let db := createMacroGoals db inferredGoals
  autoAssignActionsToGoals db

/-- The suggested actions sorted by `sortScore` descending
(`findMany({ where: { status: 'SUGGESTED' }, orderBy: { sortScore: 'desc' } })`). -/
def suggestedSortedByScoreDesc (db : DB) : List Action :=
  (db.actions.filter (fun a => decide (a.status = Status.SUGGESTED))).mergeSort
    (fun a b => decide (b.sortScore ≤ a.sortScore))

/-- `pruneLoSuggestedActions`: when more than 10 suggested actions exist,
delete (by id) every one past the top 10 of the sorted list. -/
def pruneLoSuggestedActions (db : DB) : DB :=
  let suggestedActions := suggestedSortedByScoreDesc db
  if suggestedActions.length > 10 then
    let toDismiss := suggestedActions.drop 10
    let kept :=
      db.actions.filter (fun a => !(toDismiss.any (fun d => decide (d.id = a.id))))
    { db with actions := kept }
  else db

/-- `recalculateAllActionScores`: recompute and persist the score of
every active or suggested action (a score reads no other action's
mutable state, so the sequential loop is a map). -/
def recalculateAllActionScores (db : DB) (now : Int) : DB :=
  { db with actions := db.actions.map (fun a =>
      if a.status = Status.ACTIVE ∨ a.status = Status.SUGGESTED then
        { a with sortScore := calculateActionScore db now a.id }
      else a) }

/-! ### Concrete data used to instantiate the theorems -/

/-- A fixed "current time": midnight of epoch day 100. -/
def exNow : Int := 100 * msPerDay

/-- A CEO-related standing action due later on the current day, created
ten days ago, with no linked topics. -/
def exActionDueToday : Action :=
  { id := 1, activity := "ship report", priority := Priority.P1
    dueDate := some (100 * msPerDay + 1000), status := Status.ACTIVE
    isCeoRelated := true, isStanding := true, standingCadence := none
    sortScore := 0, createdAt := 90 * msPerDay, completedAt := none
    lastCompletedAt := none, completionHistory := [], macroGoalId := none }

/-- Store holding only `exActionDueToday`. -/
def exDbScore : DB :=
  { topics := [], mentions := [], actions := [exActionDueToday]
    actionTopics := [], goals := [], nextActionId := 2, nextGoalId := 1 }

/-- A plain action whose due date is one hour before `exNow`. -/
def exActionOverdueToday : Action :=
  { id := 1, activity := "call back", priority := Priority.P2
    dueDate := some (100 * msPerDay - 3600000), status := Status.ACTIVE
    isCeoRelated := false, isStanding := false, standingCadence := none
    sortScore := 0, createdAt := 100 * msPerDay, completedAt := none
    lastCompletedAt := none, completionHistory := [], macroGoalId := none }

/-- Store holding only `exActionOverdueToday`. -/
def exDbOverdue : DB :=
  { topics := [], mentions := [], actions := [exActionOverdueToday]
    actionTopics := [], goals := [], nextActionId := 2, nextGoalId := 1 }

/-- A mention of topic 1 sitting exactly on the 28-day window boundary. -/
def exBoundaryMention : TopicMention :=
  { topicId := 1, createdAt := 100 * msPerDay - 28 * msPerDay, weight := 1
    isAsk := false, isNudge := false, noteCeoMentioned := false }

/-- Store holding only `exBoundaryMention`. -/
def exDbMentions : DB :=
  { topics := [], mentions := [exBoundaryMention], actions := []
    actionTopics := [], goals := [], nextActionId := 1, nextGoalId := 1 }

/-- A CEO-note ask mention of topic 1 at time `t`. -/
def exAskMention (t : Int) : TopicMention :=
  { topicId := 1, createdAt := t, weight := 1
    isAsk := true, isNudge := false, noteCeoMentioned := true }

/-- Store with three recent CEO asks about topic 1 and no actions. -/
def exDbAsks : DB :=
  { topics := [{ id := 1, name := "nvidia", normKey := "nvidia", frequency := 0 }]
    mentions := [exAskMention (99 * msPerDay), exAskMention (95 * msPerDay),
      exAskMention (91 * msPerDay)]
    actions := [], actionTopics := [], goals := [], nextActionId := 1, nextGoalId := 1 }

/-- An active standing action with an empty completion history. -/
def exStandingAction : Action :=
  { id := 1, activity := "Send CEO update on nvidia", priority := Priority.P0
    dueDate := some (103 * msPerDay), status := Status.ACTIVE
    isCeoRelated := true, isStanding := true, standingCadence := some Cadence.WEEKLY
    sortScore := 0, createdAt := 90 * msPerDay, completedAt := none
    lastCompletedAt := none, completionHistory := [], macroGoalId := none }

/-- Store holding only `exStandingAction`. -/
def exDbStanding : DB :=
  { topics := [], mentions := [], actions := [exStandingAction]
    actionTopics := [], goals := [], nextActionId := 2, nextGoalId := 1 }

/-- A user-edited goal. -/
def exUserGoal : MacroGoal :=
  { id := 1, goal := "keep partners happy", topicKeys := ["acme"], editedByUser := true }

/-- An auto-generated goal. -/
def exAutoGoal : MacroGoal :=
  { id := 2, goal := "grow pipeline", topicKeys := ["pipeline"], editedByUser := false }

/-- Store holding one user-edited and one auto-generated goal. -/
def exDbGoals : DB :=
  { topics := [], mentions := [], actions := [], actionTopics := []
    goals := [exUserGoal, exAutoGoal], nextActionId := 1, nextGoalId := 3 }

/-- An unassigned active action (id 1). -/
def exUnassignedAction : Action :=
  { id := 1, activity := "review acme deck", priority := Priority.P1
    dueDate := none, status := Status.ACTIVE
    isCeoRelated := false, isStanding := false, standingCadence := none
    sortScore := 0, createdAt := 90 * msPerDay, completedAt := none
    lastCompletedAt := none, completionHistory := [], macroGoalId := none }

/-- Store where action 1 is linked to topic "acme" and one goal covers
that key. -/
def exDbAssign : DB :=
  { topics := [{ id := 1, name := "Acme", normKey := "acme", frequency := 2 }]
    mentions := [], actions := [exUnassignedAction]
    actionTopics := [{ actionId := 1, topicId := 1 }]
    goals := [{ id := 7, goal := "close acme", topicKeys := ["acme"], editedByUser := false }]
    nextActionId := 2, nextGoalId := 8 }

/-- A suggested action with id `i` and score `i`. -/
def exSuggested (i : Nat) : Action :=
  { id := i, activity := "todo", priority := Priority.P2
    dueDate := none, status := Status.SUGGESTED
    isCeoRelated := false, isStanding := false, standingCadence := none
    sortScore := (i : Rat), createdAt := 90 * msPerDay, completedAt := none
    lastCompletedAt := none, completionHistory := [], macroGoalId := none }

/-- Store with eleven suggested actions of pairwise distinct ids and
scores. -/
def exDbPrune : DB :=
  { topics := [], mentions := [], actions := (List.range 11).map exSuggested
    actionTopics := [], goals := [], nextActionId := 11, nextGoalId := 1 }

/-- A Wednesday timestamp (epoch day 104, a bit after midnight). -/
def exWednesday : Int := 104 * msPerDay + 123

/-- A Sunday timestamp (epoch day 101). -/
def exSunday : Int := 101 * msPerDay + 7777

/-! ### Scoring: decomposition helpers -/

/-- The sequential score accumulation equals the sum of the five named
signal contributions. -/
theorem calculateActionScore_decomp (db : DB) (now : Int) (actionId : Nat) (a : Action)
    (h : findAction db actionId = some a) :
    calculateActionScore db now actionId =
      ceoContribution a + standingContribution a + topicFrequencyContribution db a
        + dueDateContribution now a + ageContribution now a := by
  unfold calculateActionScore ceoContribution standingContribution
    topicFrequencyContribution dueDateContribution ageContribution
  rw [h]
  cases hd : a.dueDate <;> simp only [hd] <;> split_ifs <;> ring

/-- The legacy score accumulation equals the sum of its five signal
contributions. -/
theorem legacyActionScore_decomp (db : DB) (now : Int) (actionId : Nat) (a : Action)
    (h : findAction db actionId = some a) :
    Legacy.calculateActionScore db now actionId =
      ceoContribution a + standingContribution a + topicFrequencyContribution db a
        + legacyDueDateContribution now a + ageContribution now a := by
  unfold Legacy.calculateActionScore ceoContribution standingContribution
    topicFrequencyContribution legacyDueDateContribution ageContribution
  rw [h]
  cases hd : a.dueDate <;> simp only [hd] <;> split_ifs <;> ring

/-! ### Claim theorems: scoring -/

/-- Claim C1: the sortScore is the order-independent sum of the five
weighted signal contributions, and an important-party standing action
due on the current day, created 10 days ago, with zero linked topics
scores exactly 1700 = 1000 + 500 + 150 + min(50, 100). -/
theorem score_composition (db : DB) (now : Int) (actionId : Nat) (a : Action)
    (h : findAction db actionId = some a) :
    calculateActionScore db now actionId =
      ceoContribution a + standingContribution a + topicFrequencyContribution db a
        + dueDateContribution now a + ageContribution now a
    ∧ (a.isCeoRelated = true → a.isStanding = true →
        (∃ d, a.dueDate = some d ∧ differenceInDays d now = 0) →
        differenceInDays now a.createdAt = 10 →
        linkedTopics db a.id = [] →
        calculateActionScore db now actionId = 1700) := by
  refine ⟨calculateActionScore_decomp db now actionId a h, ?_⟩
  rintro hceo hstand ⟨d, hd, hdiff⟩ hage htop
  rw [calculateActionScore_decomp db now actionId a h]
  simp only [ceoContribution, standingContribution, topicFrequencyContribution,
    dueDateContribution, ageContribution, hceo, hstand, hd, htop, hage, hdiff]
  norm_num

/-- Claim C1 witness: the concrete 1700-point action. -/
theorem score_composition_witness :
    calculateActionScore exDbScore exNow 1 = 1700 :=
  (score_composition exDbScore exNow 1 exActionDueToday rfl).2 rfl rfl
    ⟨100 * msPerDay + 1000, rfl, by decide⟩ (by decide) rfl

/-- Claim C3 counterexample: an action due one hour before `now` is due
earlier than the current time, yet its due-date contribution (and its
whole score, all other signals being zero here) is 150, not 200. -/
theorem overdue_bucket_counterexample :
    (100 * msPerDay - 3600000 : Int) < exNow
    ∧ dueDateContribution exNow exActionOverdueToday = 150
    ∧ ¬ dueDateContribution exNow exActionOverdueToday = 200
    ∧ calculateActionScore exDbOverdue exNow 1 = 150 := by
  have hdue : dueDateContribution exNow exActionOverdueToday = 150 := rfl
  refine ⟨by decide, hdue, by rw [hdue]; norm_num, ?_⟩
  have hdec := calculateActionScore_decomp exDbOverdue exNow 1 exActionOverdueToday rfl
  have hceo : ceoContribution exActionOverdueToday = 0 := rfl
  have hst : standingContribution exActionOverdueToday = 0 := rfl
  have htf : topicFrequencyContribution exDbOverdue exActionOverdueToday = 0 := rfl
  have hage : ageContribution exNow exActionOverdueToday = 0 := by
    have h0 : differenceInDays exNow exActionOverdueToday.createdAt = 0 := by decide
    rw [ageContribution, h0]
    norm_num
  rw [hdec, hceo, hst, htf, hdue, hage]
  norm_num

/-- Claim C3 (amended): the due-date buckets are decided by the whole-day
difference `differenceInDays(dueDate, now)` (truncated toward zero): a
negative difference — due at least one full day ago — gives exactly
+200, difference 0 (due on the current day, even if earlier than the
current time) gives +150, difference 1 gives +100, difference 2–3 gives
+50, anything else 0; the buckets are mutually exclusive and the total
due-date contribution is always one of {200, 150, 100, 50, 0}. -/
theorem dueDate_bucket_spec (now : Int) (a : Action) :
    (∀ d, a.dueDate = some d →
      (differenceInDays d now < 0 → dueDateContribution now a = 200)
      ∧ (differenceInDays d now = 0 → dueDateContribution now a = 150)
      ∧ (differenceInDays d now = 1 → dueDateContribution now a = 100)
      ∧ (1 < differenceInDays d now → differenceInDays d now ≤ 3 →
          dueDateContribution now a = 50)
      ∧ (3 < differenceInDays d now → dueDateContribution now a = 0))
    ∧ (a.dueDate = none → dueDateContribution now a = 0)
    ∧ (dueDateContribution now a = 200 ∨ dueDateContribution now a = 150
       ∨ dueDateContribution now a = 100 ∨ dueDateContribution now a = 50
       ∨ dueDateContribution now a = 0) := by
  refine ⟨?_, ?_, ?_⟩
  · intro d hd
    refine ⟨?_, ?_, ?_, ?_, ?_⟩ <;>
      (simp only [dueDateContribution, hd]; intros; split_ifs <;>
        first
          | rfl
          | omega)
  · intro hd
    simp only [dueDateContribution, hd]
  · cases hd : a.dueDate <;> simp only [dueDateContribution, hd] <;>
      first
        | tauto
        | (split_ifs <;> tauto)

/-- Claim C3 (amended) witness: the one-hour-overdue action sits in the
due-today bucket. -/
theorem dueDate_bucket_spec_witness :
    dueDateContribution exNow exActionOverdueToday = 150 :=
  (((dueDate_bucket_spec exNow exActionOverdueToday).1
      (100 * msPerDay - 3600000) rfl).2.1) (by decide)

/-- Claim C10: the legacy and the orchestrator's `calculateActionScore`
agree on every action that is missing, has no due date, or whose
whole-day difference to now is nonzero; they differ exactly on an action
due on the current day (difference 0), where the legacy variant's
due-date bucket pays 200 and the orchestrator's pays 150, so the legacy
score is 50 points higher. -/
theorem legacy_vs_orchestrator_score (db : DB) (now : Int) (actionId : Nat) :
    (findAction db actionId = none →
      Legacy.calculateActionScore db now actionId = 0
      ∧ calculateActionScore db now actionId = 0)
    ∧ ∀ a, findAction db actionId = some a →
        (a.dueDate = none →
          Legacy.calculateActionScore db now actionId = calculateActionScore db now actionId)
        ∧ (∀ d, a.dueDate = some d → differenceInDays d now ≠ 0 →
            Legacy.calculateActionScore db now actionId = calculateActionScore db now actionId)
        ∧ (∀ d, a.dueDate = some d → differenceInDays d now = 0 →
            Legacy.calculateActionScore db now actionId
              = calculateActionScore db now actionId + 50
            ∧ legacyDueDateContribution now a = 200
            ∧ dueDateContribution now a = 150) := by
  constructor
  · intro h
    constructor <;> simp [Legacy.calculateActionScore, calculateActionScore, h]
  · intro a h
    have hL := legacyActionScore_decomp db now actionId a h
    have hN := calculateActionScore_decomp db now actionId a h
    refine ⟨?_, ?_, ?_⟩
    · intro hd
      rw [hL, hN]
      simp [legacyDueDateContribution, dueDateContribution, hd]
    · intro d hd hk
      rw [hL, hN]
      have : legacyDueDateContribution now a = dueDateContribution now a := by
        simp only [legacyDueDateContribution, dueDateContribution, hd]
        split_ifs <;> first | rfl | omega
      rw [this]
    · intro d hd hk
      have h200 : legacyDueDateContribution now a = 200 := by
        simp only [legacyDueDateContribution, hd]
        split_ifs <;> first | rfl | omega
      have h150 : dueDateContribution now a = 150 := by
        simp only [dueDateContribution, hd]
        split_ifs <;> first | rfl | omega
      refine ⟨?_, h200, h150⟩
      rw [hL, hN, h200, h150]
      ring

/-- Claim C10 witness: on the concrete action due later the same day the
legacy score exceeds the orchestrator's by exactly 50. -/
theorem legacy_vs_orchestrator_score_witness :
    Legacy.calculateActionScore exDbScore exNow 1
      = calculateActionScore exDbScore exNow 1 + 50 :=
  (((legacy_vs_orchestrator_score exDbScore exNow 1).2 exActionDueToday rfl).2.2
      (100 * msPerDay + 1000) rfl (by decide)).1

/-! ### Claim theorems: topic frequency -/

/-- Claim C2: a topic's frequency is the sum, over the mentions of the
topic created in the last 28 days, of the mention's adjusted weight (×3
for an important-party note, then +2 for an ask, then +1 for a nudge)
times the linear decay `1 - (daysAgo / 28) * 0.5`; with no in-window
mentions it is 0, and a mention exactly at the 28-day boundary is
included. -/
theorem topic_frequency_spec (db : DB) (now : Int) (topicId : Nat) :
    calculateTopicFrequency db now topicId
      = ((topicMentionsInWindow db now topicId).map (mentionContribution now)).sum
    ∧ (topicMentionsInWindow db now topicId = [] →
        calculateTopicFrequency db now topicId = 0)
    ∧ (∀ m ∈ db.mentions, m.topicId = topicId →
        m.createdAt = now - 28 * msPerDay →
        m ∈ topicMentionsInWindow db now topicId) := by
  have hfold : ∀ (l : List TopicMention) (c : Rat),
      l.foldl (fun acc m => acc + mentionContribution now m) c
        = c + (l.map (mentionContribution now)).sum := by
    intro l
    induction l with
    | nil => intro c; simp
    | cons m ms ih => intro c; simp [ih, add_assoc]
  have hdef : calculateTopicFrequency db now topicId
      = (topicMentionsInWindow db now topicId).foldl
          (fun acc m => acc + mentionContribution now m) 0 := rfl
  refine ⟨?_, ?_, ?_⟩
  · rw [hdef, hfold]
    ring
  · intro h
    rw [hdef, h]
    rfl
  · intro m hm ht hc
    simp only [topicMentionsInWindow, List.mem_filter]
    refine ⟨hm, ?_⟩
    simp [ht, hc]

/-- Claim C2 witness: the mention sitting exactly at the 28-day boundary
is part of the window. -/
theorem topic_frequency_spec_witness :
    exBoundaryMention ∈ topicMentionsInWindow exDbMentions exNow 1 :=
  (topic_frequency_spec exDbMentions exNow 1).2.2 exBoundaryMention
    (by simp [exDbMentions]) rfl rfl

/-! ### Claim theorems: next Monday -/

/-- Claim C9: `getNextMonday` lands on a Monday strictly after the start
of today and at most 7 days out; on a Sunday it is exactly 1 day out, on
a Wednesday 5 days, and on a Monday 7 days. -/
theorem next_monday_spec (now : Int) :
    dayOfWeekOf (getNextMonday now) = 1
    ∧ startOfDay now < getNextMonday now
    ∧ getNextMonday now ≤ startOfDay now + 7 * msPerDay
    ∧ (dayOfWeekOf now = 0 → getNextMonday now = startOfDay now + msPerDay)
    ∧ (dayOfWeekOf now = 3 → getNextMonday now = startOfDay now + 5 * msPerDay)
    ∧ (dayOfWeekOf now = 1 → getNextMonday now = startOfDay now + 7 * msPerDay) := by
  have hne : (msPerDay : Int) ≠ 0 := by norm_num [msPerDay]
  have key : ∀ k : Int,
      Int.fdiv (msPerDay * Int.fdiv now msPerDay + k * msPerDay) msPerDay
        = Int.fdiv now msPerDay + k := by
    intro k
    rw [show msPerDay * Int.fdiv now msPerDay + k * msPerDay
        = msPerDay * (Int.fdiv now msPerDay + k) from by ring]
    exact Int.mul_fdiv_cancel_left _ hne
  have habs : ∀ k : Int,
      dayOfWeekOf (startOfDay now + k * msPerDay)
        = (Int.fdiv now msPerDay + k + 4) % 7 := by
    intro k
    unfold dayOfWeekOf startOfDay
    rw [key]
  simp only [getNextMonday]
  by_cases h0 : dayOfWeekOf now = 0
  · rw [if_pos h0]
    refine ⟨?_, ?_, ?_, ?_, ?_, ?_⟩
    · rw [habs 1]
      unfold dayOfWeekOf at h0
      omega
    · simp only [msPerDay]
      omega
    · simp only [msPerDay]
      omega
    · intro _
      ring
    · intro h3
      rw [h0] at h3
      omega
    · intro h1
      rw [h0] at h1
      omega
  · rw [if_neg h0]
    refine ⟨?_, ?_, ?_, ?_, ?_, ?_⟩
    · rw [habs (8 - dayOfWeekOf now)]
      unfold dayOfWeekOf at h0 ⊢
      omega
    · unfold dayOfWeekOf at h0 ⊢
      simp only [msPerDay] at *
      omega
    · unfold dayOfWeekOf at h0 ⊢
      simp only [msPerDay] at *
      omega
    · intro hw
      exact absurd hw h0
    · intro h3
      rw [h3]
      ring
    · intro h1
      rw [h1]
      ring

/-- Claim C9 witness: on the concrete Wednesday the due date is the
Monday 5 days later. -/
theorem next_monday_spec_witness :
    getNextMonday exWednesday = startOfDay exWednesday + 5 * msPerDay :=
  (next_monday_spec exWednesday).2.2.2.2.1 (by decide)

/-! ### Claim theorems: standing completion -/

/-- Claim C6: `completeStanding` on an existing standing action marks it
done and appends exactly one timestamp to its completion history while
leaving the due date unchanged; on a missing or non-standing action it
changes nothing. -/
theorem standing_completion_spec (db : DB) (now : Int) (actionId : Nat) :
    (∀ a, findAction db actionId = some a → a.isStanding = true →
      ∃ done, findAction (handleStandingActionCompletion db now actionId) actionId = some done
        ∧ done.status = Status.DONE
        ∧ done.completionHistory = a.completionHistory ++ [now]
        ∧ done.completionHistory.length = a.completionHistory.length + 1
        ∧ done.dueDate = a.dueDate
        ∧ done.id = a.id)
    ∧ (findAction db actionId = none →
        handleStandingActionCompletion db now actionId = db)
    ∧ (∀ a, findAction db actionId = some a → a.isStanding = false →
        handleStandingActionCompletion db now actionId = db) := by
  refine ⟨?_, ?_, ?_⟩
  · intro a h hstanding
    have hid : a.id = actionId := by
      have := List.find?_some h
      simpa using this
    refine ⟨{ a with status := Status.DONE, completedAt := some now, lastCompletedAt := some now, completionHistory := a.completionHistory ++ [now] }, ?_, rfl, rfl, by simp, rfl, rfl⟩
    have hred : handleStandingActionCompletion db now actionId
        = { db with actions := db.actions.map (fun x => if x.id = actionId then { x with status := Status.DONE, completedAt := some now, lastCompletedAt := some now, completionHistory := a.completionHistory ++ [now] } else x) } := by
      unfold handleStandingActionCompletion
      rw [h]
      simp [hstanding]
    rw [hred]
    unfold findAction at h ⊢
    simp only
    generalize db.actions = l at h ⊢
    induction l with
    | nil => exact absurd h (by simp)
    | cons b t ih =>
      by_cases hb : b.id = actionId
      · have hba : b = a := by
          have : some b = some a := by
            rw [← h]
            simp [List.find?_cons, hb]
          exact Option.some.inj this
        subst hba
        simp [List.find?_cons, hb]
      · have ht : t.find? (fun x => decide (x.id = actionId)) = some a := by
          rw [← h]
          simp [List.find?_cons, hb]
        have := ih ht
        simp only [List.map_cons, if_neg hb]
        simp [List.find?_cons, hb, this]
  · intro h
    unfold handleStandingActionCompletion
    rw [h]
  · intro a h hstanding
    unfold handleStandingActionCompletion
    rw [h]
    simp [hstanding]

/-- Claim C6 witness: completing the concrete standing action yields a
done action with one new history entry and the same due date. -/
theorem standing_completion_spec_witness :
    ∃ done, findAction (handleStandingActionCompletion exDbStanding exNow 1) 1 = some done
      ∧ done.status = Status.DONE
      ∧ done.completionHistory = exStandingAction.completionHistory ++ [exNow]
      ∧ done.completionHistory.length = exStandingAction.completionHistory.length + 1
      ∧ done.dueDate = exStandingAction.dueDate
      ∧ done.id = exStandingAction.id :=
  (standing_completion_spec exDbStanding exNow 1).1 exStandingAction rfl rfl

/-! ### Claim theorems: goal refresh -/

/-- The creation loop appends exactly the fresh non-user-edited goals,
ids counting up from the store's next goal id. -/
theorem createMacroGoals_goals (db : DB) (gs : List InferredGoal) :
    (createMacroGoals db gs).goals = db.goals ++ freshGoalsFrom db.nextGoalId gs := by
  induction gs generalizing db with
  | nil => simp [createMacroGoals, freshGoalsFrom]
  | cons g gs ih =>
    have step : createMacroGoals db (g :: gs) = createMacroGoals { db with goals := db.goals ++ [{ id := db.nextGoalId, goal := g.goal, topicKeys := g.topicKeys, editedByUser := false }], nextGoalId := db.nextGoalId + 1 } gs := rfl
    rw [step, ih]
    simp [freshGoalsFrom]

/-- Claim C7: the goal-refresh pass replaces the goal table by the
user-edited goals followed by the freshly inserted inferred set (all
non-user-edited, contents matching the inferred list); user-edited goals
survive unchanged, and a collaborator failure yields the empty inferred
set, so only the user-edited goals remain. -/
theorem goal_replacement_spec (db : DB) (response : Except String (List InferredGoal)) :
    (updateMacroGoals db response).goals
      = db.goals.filter (fun g => g.editedByUser)
        ++ freshGoalsFrom db.nextGoalId (inferMacroGoalsResult response)
    ∧ (∀ g ∈ db.goals, g.editedByUser = true → g ∈ (updateMacroGoals db response).goals)
    ∧ (∀ g ∈ freshGoalsFrom db.nextGoalId (inferMacroGoalsResult response),
        g.editedByUser = false)
    ∧ (freshGoalsFrom db.nextGoalId (inferMacroGoalsResult response)).map
          (fun g => (g.goal, g.topicKeys))
        = (inferMacroGoalsResult response).map (fun g => (g.goal, g.topicKeys))
    ∧ (∀ e, response = Except.error e →
        (updateMacroGoals db response).goals
          = db.goals.filter (fun g => g.editedByUser)) := by
  have hfalse : ∀ (n : Nat) (gs : List InferredGoal),
      ∀ g ∈ freshGoalsFrom n gs, g.editedByUser = false := by
    intro n gs
    induction gs generalizing n with
    | nil => simp [freshGoalsFrom]
    | cons g gs ih =>
      intro x hx
      rcases (by simpa [freshGoalsFrom] using hx :
          x = ({ id := n, goal := g.goal, topicKeys := g.topicKeys, editedByUser := false } : MacroGoal) ∨ x ∈ freshGoalsFrom (n + 1) gs) with h | h
      · rw [h]
      · exact ih (n + 1) x h
  have hshape : ∀ (n : Nat) (gs : List InferredGoal),
      (freshGoalsFrom n gs).map (fun g => (g.goal, g.topicKeys))
        = gs.map (fun g => (g.goal, g.topicKeys)) := by
    intro n gs
    induction gs generalizing n with
    | nil => rfl
    | cons g gs ih => simp [freshGoalsFrom, ih]
  have hmain : (updateMacroGoals db response).goals
      = db.goals.filter (fun g => g.editedByUser)
        ++ freshGoalsFrom db.nextGoalId (inferMacroGoalsResult response) := by
    have h1 : (updateMacroGoals db response).goals
        = (createMacroGoals { db with goals := db.goals.filter (fun g => g.editedByUser) }
            (inferMacroGoalsResult response)).goals := rfl
    rw [h1, createMacroGoals_goals]
  refine ⟨hmain, ?_, hfalse db.nextGoalId _, hshape db.nextGoalId _, ?_⟩
  · intro g hg hedited
    rw [hmain]
    exact List.mem_append_left _ (List.mem_filter.mpr ⟨hg, by simp [hedited]⟩)
  · intro e he
    rw [hmain, he]
    simp [inferMacroGoalsResult, freshGoalsFrom]

/-- Claim C7 witness: on a collaborator failure only the user-edited
goal survives. -/
theorem goal_replacement_spec_witness :
    (updateMacroGoals exDbGoals (Except.error "boom")).goals
      = exDbGoals.goals.filter (fun g => g.editedByUser) :=
  (goal_replacement_spec exDbGoals (Except.error "boom")).2.2.2.2 "boom" rfl

/-! ### Claim theorems: goal auto-assignment -/

/-- Invariant of the strict-improvement scan: the running maximum never
decreases, bounds every scanned overlap, and the final candidate — when
the scan improved on the start accumulator at all — is the first
list element attaining the overall maximum. -/
theorem bestGoalFold_invariant (keys : List String) :
    ∀ (gs : List MacroGoal) (acc : Option MacroGoal × Nat),
      acc.2 ≤ (gs.foldl (fun acc g => if goalOverlap g keys > acc.2 then (some g, goalOverlap g keys) else acc) acc).2
      ∧ (∀ g ∈ gs, goalOverlap g keys ≤ (gs.foldl (fun acc g => if goalOverlap g keys > acc.2 then (some g, goalOverlap g keys) else acc) acc).2)
      ∧ ((gs.foldl (fun acc g => if goalOverlap g keys > acc.2 then (some g, goalOverlap g keys) else acc) acc) = acc
         ∨ ∃ l1 g l2, gs = l1 ++ g :: l2
             ∧ (gs.foldl (fun acc g => if goalOverlap g keys > acc.2 then (some g, goalOverlap g keys) else acc) acc) = (some g, goalOverlap g keys)
             ∧ acc.2 < goalOverlap g keys
             ∧ (∀ x ∈ l1, goalOverlap x keys < goalOverlap g keys)
             ∧ (∀ x ∈ l2, goalOverlap x keys ≤ goalOverlap g keys)) := by
  intro gs
  induction gs with
  | nil => exact fun acc => ⟨Nat.le_refl _, by simp, Or.inl rfl⟩
  | cons g rest ih =>
    intro acc
    by_cases hgt : goalOverlap g keys > acc.2
    · have hstep : (g :: rest).foldl (fun acc g => if goalOverlap g keys > acc.2 then (some g, goalOverlap g keys) else acc) acc
          = rest.foldl (fun acc g => if goalOverlap g keys > acc.2 then (some g, goalOverlap g keys) else acc) (some g, goalOverlap g keys) := by
        simp [List.foldl_cons, if_pos hgt]
      obtain ⟨ih1, ih2, ih3⟩ := ih (some g, goalOverlap g keys)
      rw [hstep]
      refine ⟨Nat.le_trans (Nat.le_of_lt hgt) ih1, ?_, ?_⟩
      · intro x hx
        rcases List.mem_cons.mp hx with rfl | hx
        · exact ih1
        · exact ih2 x hx
      · rcases ih3 with heq | ⟨l1, g', l2, hsplit, hres, hlt, hl1, hl2⟩
        · refine Or.inr ⟨[], g, rest, by simp, heq, hgt, by simp, ?_⟩
          intro x hx
          have := ih2 x hx
          rw [heq] at this
          exact this
        · refine Or.inr ⟨g :: l1, g', l2, by rw [hsplit, List.cons_append], hres, Nat.lt_trans hgt hlt, ?_, hl2⟩
          intro x hx
          rcases List.mem_cons.mp hx with rfl | hx
          · exact hlt
          · exact hl1 x hx
    · have hstep : (g :: rest).foldl (fun acc g => if goalOverlap g keys > acc.2 then (some g, goalOverlap g keys) else acc) acc
          = rest.foldl (fun acc g => if goalOverlap g keys > acc.2 then (some g, goalOverlap g keys) else acc) acc := by
        simp [List.foldl_cons, if_neg hgt]
      obtain ⟨ih1, ih2, ih3⟩ := ih acc
      rw [hstep]
      refine ⟨ih1, ?_, ?_⟩
      · intro x hx
        rcases List.mem_cons.mp hx with rfl | hx
        · exact Nat.le_trans (Nat.le_of_not_lt hgt) ih1
        · exact ih2 x hx
      · rcases ih3 with heq | ⟨l1, g', l2, hsplit, hres, hlt, hl1, hl2⟩
        · exact Or.inl heq
        · refine Or.inr ⟨g :: l1, g', l2, by rw [hsplit, List.cons_append], hres, hlt, ?_, hl2⟩
          intro x hx
          rcases List.mem_cons.mp hx with rfl | hx
          · exact Nat.lt_of_le_of_lt (Nat.le_of_not_lt hgt) hlt
          · exact hl1 x hx

/-- The per-action assignment either leaves the action alone or only
sets `macroGoalId`. -/
theorem assignActionToGoal_cases (db : DB) (a : Action) :
    assignActionToGoal db a = a
    ∨ ∃ gid, assignActionToGoal db a = { a with macroGoalId := some gid } := by
  unfold assignActionToGoal
  split
  · split
    · split
      · exact Or.inr ⟨_, rfl⟩
      · exact Or.inl rfl
    · exact Or.inl rfl
  · exact Or.inl rfl

/-- Claim C8: the auto-assignment pass leaves alone every action that
already has a goal or is not active/suggested, leaves a candidate with
zero overlap with every goal unassigned, assigns a candidate only to a
goal with strictly maximal positive overlap where the first goal
attaining the maximum wins, and running the pass twice changes
nothing. -/
theorem goal_assignment_spec (db : DB) :
    (∀ a : Action, (a.macroGoalId ≠ none
        ∨ (a.status ≠ Status.ACTIVE ∧ a.status ≠ Status.SUGGESTED)) →
      assignActionToGoal db a = a)
    ∧ (∀ a : Action, (∀ g ∈ db.goals, goalOverlap g (actionTopicKeysOf db a) = 0) →
        assignActionToGoal db a = a)
    ∧ (∀ a : Action, (a.status = Status.ACTIVE ∨ a.status = Status.SUGGESTED) →
        a.macroGoalId = none →
        (∃ g ∈ db.goals, 0 < goalOverlap g (actionTopicKeysOf db a)) →
        (assignActionToGoal db a).macroGoalId ≠ none)
    ∧ (∀ (a : Action) (gid : Nat), a.macroGoalId = none →
        (assignActionToGoal db a).macroGoalId = some gid →
        ∃ l1 g l2, db.goals = l1 ++ g :: l2 ∧ g.id = gid
          ∧ 0 < goalOverlap g (actionTopicKeysOf db a)
          ∧ (∀ x ∈ l1, goalOverlap x (actionTopicKeysOf db a)
              < goalOverlap g (actionTopicKeysOf db a))
          ∧ (∀ x ∈ l2, goalOverlap x (actionTopicKeysOf db a)
              ≤ goalOverlap g (actionTopicKeysOf db a)))
    ∧ autoAssignActionsToGoals (autoAssignActionsToGoals db) = autoAssignActionsToGoals db := by
  have hbg : ∀ keys : List String, bestGoalFold db.goals keys
      = db.goals.foldl (fun acc g => if goalOverlap g keys > acc.2 then (some g, goalOverlap g keys) else acc) (none, 0) :=
    fun _ => rfl
  refine ⟨?_, ?_, ?_, ?_, ?_⟩
  · intro a h
    unfold assignActionToGoal
    rcases h with hsome | ⟨hs1, hs2⟩
    · simp [hsome]
    · simp [hs1, hs2]
  · intro a hz
    unfold assignActionToGoal
    split
    · rcases (bestGoalFold_invariant (actionTopicKeysOf db a) db.goals (none, 0)).2.2 with
        heq | ⟨l1, g, l2, hsplit, hres, hlt, hl1, hl2⟩
      · have h1 : (bestGoalFold db.goals (actionTopicKeysOf db a)).1 = none := by
          rw [hbg, heq]
        rw [h1]
      · exfalso
        have hg : g ∈ db.goals := by
          rw [hsplit]
          exact List.mem_append_right _ (List.mem_cons_self _ _)
        have := hz g hg
        omega
    · rfl
  · intro a hstat hnone hex
    obtain ⟨g0, hg0, hpos0⟩ := hex
    have hcond : ((decide (a.status = Status.ACTIVE) || decide (a.status = Status.SUGGESTED)) && decide (a.macroGoalId = none)) = true := by
      rcases hstat with h | h <;> simp [h, hnone]
    obtain ⟨hge, hall, hthird⟩ := bestGoalFold_invariant (actionTopicKeysOf db a) db.goals (none, 0)
    rcases hthird with heq | ⟨l1, g, l2, hsplit, hres, hlt, hl1, hl2⟩
    · exfalso
      have := hall g0 hg0
      rw [heq] at this
      omega
    · have hdb : bestGoalFold db.goals (actionTopicKeysOf db a)
          = (some g, goalOverlap g (actionTopicKeysOf db a)) := by
        rw [hbg]
        exact hres
      have hval : assignActionToGoal db a = { a with macroGoalId := some g.id } := by
        unfold assignActionToGoal
        rw [if_pos hcond, hdb]
        simp [hlt]
      rw [hval]
      simp
  · intro a gid hnone hassigned
    by_cases hcond : ((decide (a.status = Status.ACTIVE) || decide (a.status = Status.SUGGESTED)) && decide (a.macroGoalId = none)) = true
    · rcases (bestGoalFold_invariant (actionTopicKeysOf db a) db.goals (none, 0)).2.2 with
        heq | ⟨l1, g, l2, hsplit, hres, hlt, hl1, hl2⟩
      · exfalso
        have hdb : bestGoalFold db.goals (actionTopicKeysOf db a) = (none, 0) := by
          rw [hbg, heq]
        have : assignActionToGoal db a = a := by
          unfold assignActionToGoal
          rw [if_pos hcond, hdb]
        rw [this, hnone] at hassigned
        exact Option.noConfusion hassigned
      · have hdb : bestGoalFold db.goals (actionTopicKeysOf db a)
            = (some g, goalOverlap g (actionTopicKeysOf db a)) := by
          rw [hbg, hres]
        have hpos : 0 < goalOverlap g (actionTopicKeysOf db a) := hlt
        have hval : assignActionToGoal db a = { a with macroGoalId := some g.id } := by
          unfold assignActionToGoal
          rw [if_pos hcond, hdb]
          simp [hpos]
        rw [hval] at hassigned
        simp only at hassigned
        exact ⟨l1, g, l2, hsplit, by simpa using hassigned, hpos, hl1, hl2⟩
    · exfalso
      have : assignActionToGoal db a = a := by
        unfold assignActionToGoal
        rw [if_neg hcond]
      rw [this, hnone] at hassigned
      exact Option.noConfusion hassigned
  · have hcomp : ∀ a, assignActionToGoal (autoAssignActionsToGoals db) a
        = assignActionToGoal db a := fun _ => rfl
    have hidem : ∀ a, assignActionToGoal db (assignActionToGoal db a)
        = assignActionToGoal db a := by
      intro a
      rcases assignActionToGoal_cases db a with h | ⟨gid, h⟩
      · rw [h]
        exact h
      · rw [h]
        unfold assignActionToGoal
        simp
    show autoAssignActionsToGoals (autoAssignActionsToGoals db) = autoAssignActionsToGoals db
    unfold autoAssignActionsToGoals
    congr 1
    rw [List.map_map]
    refine List.map_congr_left ?_
    intro a _
    show assignActionToGoal { db with actions := db.actions.map (fun a => assignActionToGoal db a) } (assignActionToGoal db a) = assignActionToGoal db a
    rw [show assignActionToGoal { db with actions := db.actions.map (fun a => assignActionToGoal db a) } (assignActionToGoal db a) = assignActionToGoal db (assignActionToGoal db a) from rfl]
    exact hidem a

/-- Claim C8 witness: the concrete unassigned action gets the sole
covering goal (id 7), which has strictly maximal positive overlap. -/
theorem goal_assignment_spec_witness :
    ∃ l1 g l2, exDbAssign.goals = l1 ++ g :: l2 ∧ g.id = 7
      ∧ 0 < goalOverlap g (actionTopicKeysOf exDbAssign exUnassignedAction)
      ∧ (∀ x ∈ l1, goalOverlap x (actionTopicKeysOf exDbAssign exUnassignedAction)
          < goalOverlap g (actionTopicKeysOf exDbAssign exUnassignedAction))
      ∧ (∀ x ∈ l2, goalOverlap x (actionTopicKeysOf exDbAssign exUnassignedAction)
          ≤ goalOverlap g (actionTopicKeysOf exDbAssign exUnassignedAction)) :=
  (goal_assignment_spec exDbAssign).2.2.2.1 exUnassignedAction 7 rfl (by decide)

/-! ### Claim theorems: suggestion pruning -/

/-- Claim C5: under distinct action ids, pruning leaves at most 10
suggested actions; when more than 10 existed, exactly 10 remain and
every surviving suggested action scores at least as high as every
deleted one, while non-suggested actions are never deleted. -/
theorem prune_spec (db : DB)
    (hN : (db.actions.map (fun a => a.id)).Nodup) :
    ((pruneLoSuggestedActions db).actions.filter
        (fun a => decide (a.status = Status.SUGGESTED))).length ≤ 10
    ∧ (∀ a ∈ db.actions, a.status ≠ Status.SUGGESTED →
        a ∈ (pruneLoSuggestedActions db).actions)
    ∧ ((db.actions.filter (fun a => decide (a.status = Status.SUGGESTED))).length > 10 →
        ((pruneLoSuggestedActions db).actions.filter
            (fun a => decide (a.status = Status.SUGGESTED))).length = 10
        ∧ ∀ a ∈ (pruneLoSuggestedActions db).actions, a.status = Status.SUGGESTED →
            ∀ b ∈ db.actions, b.status = Status.SUGGESTED →
              b ∉ (pruneLoSuggestedActions db).actions →
                b.sortScore ≤ a.sortScore) := by
  have hperm : (suggestedSortedByScoreDesc db).Perm
      (db.actions.filter (fun a => decide (a.status = Status.SUGGESTED))) :=
    List.mergeSort_perm _ _
  by_cases hbig : (suggestedSortedByScoreDesc db).length > 10
  case neg =>
    have hid : pruneLoSuggestedActions db = db := by
      simp only [pruneLoSuggestedActions]
      rw [if_neg hbig]
    rw [hid]
    refine ⟨?_, ?_, ?_⟩
    · have := hperm.length_eq
      omega
    · intro a ha _
      exact ha
    · intro hgt
      exfalso
      have := hperm.length_eq
      omega
  case pos =>
    have hact : (pruneLoSuggestedActions db).actions
        = db.actions.filter (fun a =>
            !(((suggestedSortedByScoreDesc db).drop 10).any (fun d => decide (d.id = a.id)))) := by
      simp only [pruneLoSuggestedActions]
      rw [if_pos hbig]
    have hNodupActs : db.actions.Nodup := List.Nodup.of_map _ hN
    have inj : ∀ x ∈ db.actions, ∀ y ∈ db.actions, x.id = y.id → x = y := by
      intro x hx y hy hxy
      exact List.inj_on_of_nodup_map hN hx hy hxy
    have hsubSugg : ∀ x ∈ db.actions.filter (fun a => decide (a.status = Status.SUGGESTED)),
        x ∈ db.actions := fun x hx => (List.mem_filter.mp hx).1
    have hmemSorted : ∀ x : Action, x ∈ suggestedSortedByScoreDesc db
        ↔ x ∈ db.actions.filter (fun a => decide (a.status = Status.SUGGESTED)) :=
      fun x => hperm.mem_iff
    have hNodupSorted : (suggestedSortedByScoreDesc db).Nodup :=
      hperm.nodup_iff.mpr (hNodupActs.filter _)
    have hdismiss_mem : ∀ d ∈ (suggestedSortedByScoreDesc db).drop 10,
        d ∈ db.actions ∧ d.status = Status.SUGGESTED := by
      intro d hd
      have hds : d ∈ suggestedSortedByScoreDesc db := List.drop_subset _ _ hd
      have hmf := List.mem_filter.mp ((hmemSorted d).mp hds)
      exact ⟨hmf.1, by simpa using hmf.2⟩
    have hqfalse : ∀ d ∈ (suggestedSortedByScoreDesc db).drop 10,
        (!(((suggestedSortedByScoreDesc db).drop 10).any (fun x => decide (x.id = d.id)))) = false := by
      intro d hd
      have hany : ((suggestedSortedByScoreDesc db).drop 10).any (fun x => decide (x.id = d.id)) = true :=
        List.any_eq_true.mpr ⟨d, hd, by simp⟩
      rw [hany]
      rfl
    have hqtrue : ∀ a ∈ db.actions, a ∉ (suggestedSortedByScoreDesc db).drop 10 →
        (!(((suggestedSortedByScoreDesc db).drop 10).any (fun x => decide (x.id = a.id)))) = true := by
      intro a ha hnot
      cases hany : ((suggestedSortedByScoreDesc db).drop 10).any (fun x => decide (x.id = a.id)) with
      | false => rfl
      | true =>
        exfalso
        obtain ⟨d, hd, hdid⟩ := List.any_eq_true.mp hany
        have hid : d.id = a.id := of_decide_eq_true hdid
        have hda : d = a := inj d (hdismiss_mem d hd).1 a ha hid
        exact hnot (hda ▸ hd)
    have hkeepOther : ∀ a ∈ db.actions, a.status ≠ Status.SUGGESTED →
        a ∈ (pruneLoSuggestedActions db).actions := by
      intro a ha hstat
      rw [hact]
      refine List.mem_filter.mpr ⟨ha, ?_⟩
      refine hqtrue a ha ?_
      intro hin
      exact hstat (hdismiss_mem a hin).2
    have hsplit : (suggestedSortedByScoreDesc db).take 10
        ++ (suggestedSortedByScoreDesc db).drop 10 = suggestedSortedByScoreDesc db :=
      List.take_append_drop _ _
    have hdisj : ∀ x ∈ (suggestedSortedByScoreDesc db).take 10,
        x ∉ (suggestedSortedByScoreDesc db).drop 10 := by
      have h := hNodupSorted
      rw [← hsplit] at h
      have hd := (List.nodup_append.mp h).2.2
      intro x hx hx'
      exact hd hx hx'
    have hkeepq : ∀ k ∈ (suggestedSortedByScoreDesc db).take 10,
        (!(((suggestedSortedByScoreDesc db).drop 10).any (fun x => decide (x.id = k.id)))) = true := by
      intro k hk
      have hks : k ∈ suggestedSortedByScoreDesc db := List.take_subset _ _ hk
      exact hqtrue k (hsubSugg k ((hmemSorted k).mp hks)) (hdisj k hk)
    have hfilterSorted : List.filter (fun a =>
          !(((suggestedSortedByScoreDesc db).drop 10).any (fun d => decide (d.id = a.id))))
          (suggestedSortedByScoreDesc db)
        = (suggestedSortedByScoreDesc db).take 10 := by
      have h0 : List.filter (fun a =>
            !(((suggestedSortedByScoreDesc db).drop 10).any (fun d => decide (d.id = a.id))))
            (suggestedSortedByScoreDesc db)
          = List.filter (fun a =>
              !(((suggestedSortedByScoreDesc db).drop 10).any (fun d => decide (d.id = a.id))))
              ((suggestedSortedByScoreDesc db).take 10 ++ (suggestedSortedByScoreDesc db).drop 10) := by
        rw [hsplit]
      rw [h0, List.filter_append, List.filter_eq_self.mpr hkeepq,
        List.filter_eq_nil_iff.mpr ?_]
      · simp
      · intro d hd
        rw [hqfalse d hd]
        simp
    have hrem : ((pruneLoSuggestedActions db).actions.filter
          (fun a => decide (a.status = Status.SUGGESTED))).Perm
        ((suggestedSortedByScoreDesc db).take 10) := by
      rw [hact, List.filter_comm]
      exact (List.Perm.filter _ hperm.symm).trans (hfilterSorted ▸ List.Perm.refl _)
    have htrans : ∀ a b c : Action, decide (b.sortScore ≤ a.sortScore) = true →
        decide (c.sortScore ≤ b.sortScore) = true →
        decide (c.sortScore ≤ a.sortScore) = true := by
      intro a b c h1 h2
      simp only [decide_eq_true_eq] at *
      exact le_trans h2 h1
    have htotal : ∀ a b : Action,
        (decide (b.sortScore ≤ a.sortScore) || decide (a.sortScore ≤ b.sortScore)) = true := by
      intro a b
      rcases le_total b.sortScore a.sortScore with h | h <;> simp [h]
    have hPairwise : List.Pairwise (fun a b => decide (b.sortScore ≤ a.sortScore) = true)
        (suggestedSortedByScoreDesc db) :=
      List.sorted_mergeSort htrans htotal
        (db.actions.filter (fun a => decide (a.status = Status.SUGGESTED)))
    rw [← hsplit] at hPairwise
    have hscore : ∀ a ∈ (suggestedSortedByScoreDesc db).take 10,
        ∀ b ∈ (suggestedSortedByScoreDesc db).drop 10, b.sortScore ≤ a.sortScore := by
      intro a ha b hb
      have h := (List.pairwise_append.mp hPairwise).2.2 a ha b hb
      exact of_decide_eq_true h
    have hmem_keep : ∀ a ∈ (pruneLoSuggestedActions db).actions,
        a.status = Status.SUGGESTED → a ∈ (suggestedSortedByScoreDesc db).take 10 := by
      intro a ha hstat
      rw [hact] at ha
      have hmf := List.mem_filter.mp ha
      have hsugg : a ∈ db.actions.filter (fun x => decide (x.status = Status.SUGGESTED)) :=
        List.mem_filter.mpr ⟨hmf.1, by simp [hstat]⟩
      have hsort : a ∈ suggestedSortedByScoreDesc db := (hmemSorted a).mpr hsugg
      rw [← hsplit] at hsort
      rcases List.mem_append.mp hsort with h | h
      · exact h
      · exfalso
        have hf := hqfalse a h
        rw [hmf.2] at hf
        exact Bool.noConfusion hf
    have hmem_dism : ∀ b ∈ db.actions, b.status = Status.SUGGESTED →
        b ∉ (pruneLoSuggestedActions db).actions →
        b ∈ (suggestedSortedByScoreDesc db).drop 10 := by
      intro b hb hstat hnot
      by_contra hnd
      exact hnot (by rw [hact]; exact List.mem_filter.mpr ⟨hb, hqtrue b hb hnd⟩)
    have hlen10 : ((pruneLoSuggestedActions db).actions.filter
        (fun a => decide (a.status = Status.SUGGESTED))).length = 10 := by
      rw [hrem.length_eq, List.length_take]
      omega
    refine ⟨by omega, hkeepOther, ?_⟩
    intro _
    refine ⟨hlen10, ?_⟩
    intro a ha hstat b hb hbstat hbnot
    exact hscore a (hmem_keep a ha hstat) b (hmem_dism b hb hbstat hbnot)

/-- Claim C5 witness: pruning eleven distinct suggested actions leaves
exactly ten. -/
theorem prune_spec_witness :
    ((pruneLoSuggestedActions exDbPrune).actions.filter
        (fun a => decide (a.status = Status.SUGGESTED))).length = 10 :=
  ((prune_spec exDbPrune (by decide)).2.2 (by decide)).1

/-! ### Claim theorems: standing-action detection -/

/-- `mapKeys` has the same members as its input list. -/
theorem mem_mapKeys (t : Nat) : ∀ l : List Nat, t ∈ mapKeys l ↔ t ∈ l := by
  intro l
  induction l using mapKeys.induct with
  | case1 => simp [mapKeys]
  | case2 x xs ih =>
    rw [mapKeys]
    constructor
    · intro h
      rcases List.mem_cons.mp h with rfl | h
      · exact List.mem_cons_self _ _
      · exact List.mem_cons_of_mem _ (List.mem_filter.mp (ih.mp h)).1
    · intro h
      rcases List.mem_cons.mp h with rfl | h
      · exact List.mem_cons_self _ _
      · by_cases hx : t = x
        · exact hx ▸ List.mem_cons_self _ _
        · exact List.mem_cons_of_mem _ (ih.mpr (List.mem_filter.mpr ⟨h, by simp [hx]⟩))

/-- The duplicate check succeeds exactly when the topic's standing-action
count is nonzero. -/
theorem existsStandingFor_iff_count (db : DB) (t : Nat) :
    existsStandingFor db t = true ↔ standingActionCountFor db t ≠ 0 := by
  unfold existsStandingFor standingActionCountFor
  rw [List.any_eq_true]
  constructor
  · rintro ⟨a, ha, hp⟩ hlen
    rw [List.length_eq_zero, List.filter_eq_nil_iff] at hlen
    exact hlen a ha hp
  · intro hlen
    rcases hfe : List.filter (fun a => a.isStanding
        && db.actionTopics.any (fun link => decide (link.actionId = a.id) && decide (link.topicId = t))) db.actions with _ | ⟨a, rest⟩
    · exact absurd (by rw [hfe]; rfl) hlen
    · have ha := List.mem_filter.mp (hfe ▸ List.mem_cons_self a rest)
      exact ⟨a, ha.1, ha.2⟩

/-- Creating a standing action preserves the id-freshness invariant. -/
theorem freshIds_create (db : DB) (now : Int) (t' : Nat) (hf : freshIds db) :
    freshIds (createStandingAction db now t') := by
  obtain ⟨h1, h2⟩ := hf
  constructor
  · intro a ha
    simp only [createStandingAction] at ha ⊢
    rcases List.mem_append.mp ha with h | h
    · exact Nat.lt_succ_of_lt (h1 a h)
    · rcases List.mem_singleton.mp h with rfl
      exact Nat.lt_succ_self _
  · intro link hlink
    simp only [createStandingAction] at hlink ⊢
    rcases List.mem_append.mp hlink with h | h
    · exact Nat.lt_succ_of_lt (h2 link h)
    · rcases List.mem_singleton.mp h with rfl
      exact Nat.lt_succ_self _

/-- Creating a standing action for topic `t'` raises the standing count
of `t'` by one and leaves every other topic's count unchanged. -/
theorem count_create (db : DB) (now : Int) (t t' : Nat) (hfresh : freshIds db) :
    standingActionCountFor (createStandingAction db now t') t
      = standingActionCountFor db t + (if t' = t then 1 else 0) := by
  unfold standingActionCountFor createStandingAction
  simp only [List.filter_append, List.length_append]
  have hcongr : List.filter (fun a => a.isStanding
        && (db.actionTopics ++ [({ actionId := db.nextActionId, topicId := t' } : ActionTopic)]).any
            (fun link => decide (link.actionId = a.id) && decide (link.topicId = t)))
        db.actions
      = List.filter (fun a => a.isStanding
          && db.actionTopics.any
              (fun link => decide (link.actionId = a.id) && decide (link.topicId = t)))
          db.actions := by
    apply List.filter_congr
    intro a ha
    have hlt : a.id < db.nextActionId := hfresh.1 a ha
    have hne : decide (db.nextActionId = a.id) = false := by
      simp only [decide_eq_false_iff_not]
      omega
    simp [List.any_append, hne]
  rw [hcongr]
  congr 1
  have hnew : ∀ link ∈ db.actionTopics,
      (decide (link.actionId = db.nextActionId) && decide (link.topicId = t)) = false := by
    intro link hlink
    have hlt : link.actionId < db.nextActionId := hfresh.2 link hlink
    have : decide (link.actionId = db.nextActionId) = false := by
      simp only [decide_eq_false_iff_not]
      omega
    rw [this]
    rfl
  by_cases ht : t' = t
  · subst ht
    simp [List.any_append, List.filter_singleton, List.any_eq_true]
  · have hfilter : (decide ((db.nextActionId : Nat) = db.nextActionId) && decide (t' = t)) = false := by
      simp [ht]
    have hany : (db.actionTopics.any
        (fun link => decide (link.actionId = db.nextActionId) && decide (link.topicId = t))) = false := by
      cases hc : db.actionTopics.any
          (fun link => decide (link.actionId = db.nextActionId) && decide (link.topicId = t)) with
      | false => rfl
      | true =>
        exfalso
        obtain ⟨link, hlink, hp⟩ := List.any_eq_true.mp hc
        have := hnew link hlink
        rw [this] at hp
        exact Bool.noConfusion hp
    simp [List.any_append, List.filter_singleton, hfilter, hany, ht]

/-- Effect of the detection loop on one topic's standing count: starting
from any store, the loop adds exactly one standing action for the topic
when the topic is grouped, passes the ≥3-asks-and-recent test, and has
no standing action yet; otherwise the count is unchanged.  Freshness of
ids is preserved. -/
theorem detect_fold_count (db0 : DB) (now : Int) (t : Nat) :
    ∀ (ks : List Nat) (db : DB), freshIds db →
      freshIds (ks.foldl (standingDetectStep db0 now) db)
      ∧ standingActionCountFor (ks.foldl (standingDetectStep db0 now) db) t
          = standingActionCountFor db t
            + (if t ∈ ks
                  ∧ (3 ≤ askCount db0 now t ∧ now - 14 * msPerDay ≤ lastAsk db0 now t)
                  ∧ standingActionCountFor db t = 0
               then 1 else 0) := by
  intro ks
  induction ks with
  | nil =>
    intro db hf
    exact ⟨hf, by simp⟩
  | cons k rest ih =>
    intro db hf
    rw [List.foldl_cons]
    by_cases hcond : (3 ≤ askCount db0 now k ∧ now - 14 * msPerDay ≤ lastAsk db0 now k)
    · by_cases hex : existsStandingFor db k = true
      · have hdb1 : standingDetectStep db0 now db k = db := by
          unfold standingDetectStep
          rw [if_pos hcond, if_pos hex]
        rw [hdb1]
        obtain ⟨ihf, ihc⟩ := ih db hf
        refine ⟨ihf, ?_⟩
        rw [ihc]
        by_cases ht : t = k
        · subst ht
          have hc0 := (existsStandingFor_iff_count db t).mp hex
          simp [hc0]
        · simp [List.mem_cons, ht]
      · have hdb1 : standingDetectStep db0 now db k = createStandingAction db now k := by
          unfold standingDetectStep
          rw [if_pos hcond, if_neg hex]
        rw [hdb1]
        have hfresh1 := freshIds_create db now k hf
        obtain ⟨ihf, ihc⟩ := ih (createStandingAction db now k) hfresh1
        refine ⟨ihf, ?_⟩
        rw [ihc, count_create db now t k hf]
        have hc0 : standingActionCountFor db k = 0 := by
          by_contra hne
          exact hex ((existsStandingFor_iff_count db k).mpr hne)
        by_cases ht : t = k
        · subst ht
          simp [hc0, hcond.1, hcond.2, List.mem_cons]
        · have htk : ¬(k = t) := fun h => ht h.symm
          simp [ht, htk, List.mem_cons]
    · have hdb1 : standingDetectStep db0 now db k = db := by
        unfold standingDetectStep
        rw [if_neg hcond]
      rw [hdb1]
      obtain ⟨ihf, ihc⟩ := ih db hf
      refine ⟨ihf, ?_⟩
      rw [ihc]
      by_cases ht : t = k
      · subst ht
        have h1 : ¬(t ∈ rest
            ∧ (3 ≤ askCount db0 now t ∧ now - 14 * msPerDay ≤ lastAsk db0 now t)
            ∧ standingActionCountFor db t = 0) := fun h => hcond h.2.1
        have h2 : ¬(t ∈ t :: rest
            ∧ (3 ≤ askCount db0 now t ∧ now - 14 * msPerDay ≤ lastAsk db0 now t)
            ∧ standingActionCountFor db t = 0) := fun h => hcond h.2.1
        rw [if_neg h1, if_neg h2]
      · simp [List.mem_cons, ht]

/-- Claim C4: under fresh ids, `detectStandingActions` creates exactly
one standing action for a topic precisely when the topic has at least 3
qualifying asks in the window, the most recent one within the last 14
days, and no standing action in any status yet; otherwise (in
particular with only 2 qualifying asks, or while a standing action
already exists) the topic's standing count is unchanged, and a repeated
run while one exists creates no duplicate. -/
theorem standing_detection_spec (db : DB) (now : Int) (t : Nat)
    (hfresh : freshIds db) :
    standingActionCountFor (detectStandingActions db now) t
      = standingActionCountFor db t
        + (if (3 ≤ askCount db now t ∧ now - 14 * msPerDay ≤ lastAsk db now t)
              ∧ standingActionCountFor db t = 0
           then 1 else 0)
    ∧ freshIds (detectStandingActions db now)
    ∧ (standingActionCountFor (detectStandingActions db now) t ≠ 0 →
        ∀ now2 : Int,
          standingActionCountFor (detectStandingActions (detectStandingActions db now) now2) t
            = standingActionCountFor (detectStandingActions db now) t) := by
  obtain ⟨hf1, hc1⟩ := detect_fold_count db now t (standingKeys db now) db hfresh
  have hf1' : freshIds (detectStandingActions db now) := hf1
  have hc1' : standingActionCountFor (detectStandingActions db now) t
      = standingActionCountFor db t
        + (if t ∈ standingKeys db now
              ∧ (3 ≤ askCount db now t ∧ now - 14 * msPerDay ≤ lastAsk db now t)
              ∧ standingActionCountFor db t = 0
           then 1 else 0) := hc1
  have hmem_of_ask : 3 ≤ askCount db now t → t ∈ standingKeys db now := by
    intro h3
    rw [standingKeys, mem_mapKeys]
    unfold askCount at h3
    rcases hfe : (qualifyingMentions db now).filter (fun m => decide (m.topicId = t)) with _ | ⟨m, rest⟩
    · rw [hfe] at h3
      simp at h3
    · have hm := List.mem_filter.mp (hfe ▸ List.mem_cons_self m rest)
      exact List.mem_map.mpr ⟨m, hm.1, of_decide_eq_true hm.2⟩
  refine ⟨?_, hf1', ?_⟩
  · rw [hc1']
    congr 1
    apply if_congr ?_ rfl rfl
    constructor
    · rintro ⟨_, h1, h2⟩
      exact ⟨h1, h2⟩
    · rintro ⟨h1, h2⟩
      exact ⟨hmem_of_ask h1.1, h1, h2⟩
  · intro hne now2
    obtain ⟨hf2, hc2⟩ := detect_fold_count (detectStandingActions db now) now2 t
      (standingKeys (detectStandingActions db now) now2) (detectStandingActions db now) hf1'
    have hc2' : standingActionCountFor
          (detectStandingActions (detectStandingActions db now) now2) t
        = standingActionCountFor (detectStandingActions db now) t
          + (if t ∈ standingKeys (detectStandingActions db now) now2
                ∧ (3 ≤ askCount (detectStandingActions db now) now2 t
                    ∧ now2 - 14 * msPerDay ≤ lastAsk (detectStandingActions db now) now2 t)
                ∧ standingActionCountFor (detectStandingActions db now) t = 0
             then 1 else 0) := hc2
    rw [hc2']
    simp [hne]

/-- Claim C4 witness: three recent CEO asks about topic 1 with no prior
standing action produce exactly one standing action. -/
theorem standing_detection_spec_witness :
    standingActionCountFor (detectStandingActions exDbAsks exNow) 1 = 1 := by
  have h := (standing_detection_spec exDbAsks exNow 1 (by unfold freshIds; simp [exDbAsks])).1
  rw [h]
  decide

end SignalNotes
